import Mathlib

/-!
# Verification of `desktop-runtime` (Rust) against its specification

Shallow embedding of the core crate (`src/core/src`): IPC command handling,
the `app://` protocol path normalization, the JSON-for-JS escape helpers,
the update checker's version comparison and asset selection, and the
pending-IPC admission counter with its drain step.

Rust `&str`/`String` values are embedded as `List Char` (`Str`), so that the
string operations used by the code (`starts_with`, `ends_with`, `contains`,
`split`, `trim_start_matches`, `trim_end_matches`, `chars`) have direct,
provable counterparts. `serde_json::Value` is embedded as the inductive
`JValue`. Machine integers that matter (`usize` counters) are embedded as
`Int` where a claim speaks about negativity, and as `Nat` elsewhere, with
subtractions kept exact by explicit `min` bounds as in the source.
-/

namespace DesktopRuntime

/-- Rust string slices, embedded as lists of characters. -/
abbrev Str := List Char

/-- Rust `str::starts_with` on a string pattern. -/
def startsWith (s pre : Str) : Bool := pre.isPrefixOf s

/-- Rust `str::ends_with` on a string pattern. -/
def endsWith (s suf : Str) : Bool := suf.isSuffixOf s

/-- Rust `str::contains` on a string pattern (substring test). -/
def containsSub (sub : Str) : Str → Bool
  | [] => decide (sub = [])
  | c :: rest => sub.isPrefixOf (c :: rest) || containsSub sub rest

/-- Rust `str::trim_start_matches(c)`: remove every leading occurrence of `c`. -/
def trimStartMatches (c : Char) (s : Str) : Str := s.dropWhile (· = c)

/-- Rust `str::trim_end_matches(c)`: remove every trailing occurrence of `c`. -/
def trimEndMatches (c : Char) (s : Str) : Str := (s.reverse.dropWhile (· = c)).reverse

/-- Rust `str::split(c)`: split at every occurrence of `c`; `"".split(c)` is `[""]`. -/
def splitChar (c : Char) : Str → List Str
  | [] => [[]]
  | x :: rest =>
    if x = c then [] :: splitChar c rest
    else
      match splitChar c rest with
      | [] => [[x]]
      | seg :: segs => (x :: seg) :: segs

/-- Accumulator for a run of ASCII digits, as in integer `FromStr` parsing. -/
def digitsAux : Str → Nat → Option Nat
  | [], acc => some acc
  | c :: rest, acc =>
    if c.isDigit then digitsAux rest (acc * 10 + (c.toNat - 48)) else none

/-- Value of a non-empty all-digit string, else `none`. -/
def digitsVal : Str → Option Nat
  | [] => none
  | c :: rest => digitsAux (c :: rest) 0

/-- Rust `str::parse::<u64>()`: optional leading `+`, then one or more ASCII
digits, value below `2^64`; anything else is a parse error (`none`). -/
def parseU64 (s : Str) : Option Nat :=
  let t : Str := match s with
    | '+' :: rest => rest
    | _ => s
  match digitsVal t with
  | some v => if v < 2 ^ 64 then some v else none
  | none => none

-- ---------------------------------------------------------------------------
-- JSON values (serde_json::Value)
-- ---------------------------------------------------------------------------

/-- Embedding of `serde_json::Value`. Numbers are embedded as integers, which
covers every number the embedded code constructs or inspects. -/
inductive JValue where
  | jnull : JValue
  | jbool : Bool → JValue
  | jnum : Int → JValue
  | jstr : Str → JValue
  | jarr : List JValue → JValue
  | jobj : List (Str × JValue) → JValue

/-- `serde_json` indexing `v[key]`: field of an object, `Null` for a missing
key or a non-object. -/
def JValue.index (v : JValue) (key : Str) : JValue :=
  match v with
  | .jobj fields =>
    match fields.find? (fun f => f.1 = key) with
    | some f => f.2
    | none => .jnull
  | _ => .jnull

/-- `Value::as_str`. -/
def JValue.as_str : JValue → Option Str
  | .jstr s => some s
  | _ => none

/-- `Value::as_array`. -/
def JValue.as_array : JValue → Option (List JValue)
  | .jarr xs => some xs
  | _ => none

-- ---------------------------------------------------------------------------
-- IPC commands and responses (src/core/src/ipc/mod.rs)
-- ---------------------------------------------------------------------------

/-- `FileFilter` from `ipc/mod.rs`: name plus extension list. -/
structure FileFilter where
  name : Str
  extensions : List Str

/-- `ConfigPayload` from `ipc/mod.rs`. -/
structure ConfigPayload where
  key : Str
  value : JValue

/-- `Command` from `ipc/mod.rs`: the closed set of commands the UI can send. -/
inductive Command where
  | ReadConfig : Command
  | WriteConfig : ConfigPayload → Command
  | Ping : Command
  | OpenFileDialog : Command
  | OpenFileDialogWithFilters : List FileFilter → Command
  | SaveFileDialog : Option Str → Option (List FileFilter) → Command
  | OpenFolderDialog : Command
  | GetVersion : Command
  | CheckForUpdates : Command
  | DownloadUpdate : Str → Command
  | InstallUpdate : Str → Command
  | OpenUrl : Str → Command
  | GetSystemInfo : Command

/-- `is_blocking_command` from `ipc/mod.rs`: true for commands that may block
(dialogs, network, installer, URL open). -/
def is_blocking_command : Command → Bool
  | .OpenFileDialog => true
  | .OpenFileDialogWithFilters _ => true
  | .SaveFileDialog _ _ => true
  | .OpenFolderDialog => true
  | .CheckForUpdates => true
  | .DownloadUpdate _ => true
  | .InstallUpdate _ => true
  | .OpenUrl _ => true
  | _ => false

/-- `IpcResponse` from `ipc/mod.rs`: response envelope with optional `ok`
payload and optional `err` message. -/
structure IpcResponse where
  id : Str
  ok : Option JValue
  err : Option Str

/-- Constructor `IpcResponse::ok`. -/
def IpcResponse.mkOk (id : Str) (data : JValue) : IpcResponse :=
  { id := id, ok := some data, err := none }

/-- Constructor `IpcResponse::err`. -/
def IpcResponse.mkErr (id : Str) (message : Str) : IpcResponse :=
  { id := id, ok := none, err := some message }

/-- Serde serialization of `IpcResponse` as the ordered list of emitted
key/value pairs: `id` always, and each of `ok`/`err` only when set
(`skip_serializing_if = Option::is_none`), never as a `null`. -/
def serializeResponse (r : IpcResponse) : List (Str × JValue) :=
  [("id".data, JValue.jstr r.id)]
    ++ (match r.ok with
        | some v => [("ok".data, v)]
        | none => [])
    ++ (match r.err with
        | some m => [("err".data, JValue.jstr m)]
        | none => [])

/-- `ALLOWED_URL_SCHEMES` from `ipc/mod.rs`. -/
def ALLOWED_URL_SCHEMES : List Str := ["https://".data, "http://".data]

-- ---------------------------------------------------------------------------
-- Command handling (src/core/src/ipc/mod.rs, src/core/src/ipc/updates.rs)
-- ---------------------------------------------------------------------------

/-- External effects a command handler may go on to perform. A handler branch
that reaches one of these leaves the pure prefix of the code; its final
response then depends on the environment (filesystem, network, dialogs). -/
inductive Effect where
  | storageGetFullConfig : Effect
  | storageSet : Str → JValue → Effect
  | dialogPickFile : Effect
  | dialogPickFileWithFilters : List FileFilter → Effect
  | dialogSaveFile : Option Str → Option (List FileFilter) → Effect
  | dialogPickFolder : Effect
  | readVersionInfo : Effect
  | networkCheckUpdates : Effect
  | networkDownload : Str → Effect
  | installerLaunch : Str → Effect
  | openerOpen : Str → Effect
  | readSystemInfo : Effect

/-- Outcome of the pure prefix of one handler invocation:
either an immediate `Ok` value, an immediate `Err` message, or the first
external effect the branch performs. -/
inductive HandleOutcome where
  | retOk : JValue → HandleOutcome
  | retErr : Str → HandleOutcome
  | performs : Effect → HandleOutcome

/-- `download_update` from `ipc/updates.rs`, up to its first effect: reject a
non-`https://` URL before any network request or filesystem write, otherwise
proceed to the network download. -/
def download_update (url : Str) : HandleOutcome :=
  if ¬ startsWith url "https://".data then
    .retErr "Download URL must be https://".data
  else
    .performs (.networkDownload url)

/-- `handle_command` from `ipc/mod.rs`, up to the first external effect of
each branch. `Ping` is fully pure; `OpenUrl` and `DownloadUpdate` have a pure
scheme check before their effect; the other branches start with an effect. -/
def handle_command : Command → HandleOutcome
  | .ReadConfig => .performs .storageGetFullConfig
  | .WriteConfig data => .performs (.storageSet data.key data.value)
  | .Ping => .retOk (.jobj [("pong".data, .jbool true)])
  | .OpenFileDialog => .performs .dialogPickFile
  | .OpenFileDialogWithFilters filters => .performs (.dialogPickFileWithFilters filters)
  | .SaveFileDialog default_name filters => .performs (.dialogSaveFile default_name filters)
  | .OpenFolderDialog => .performs .dialogPickFolder
  | .GetVersion => .performs .readVersionInfo
  | .CheckForUpdates => .performs .networkCheckUpdates
  | .DownloadUpdate url => download_update url
  | .InstallUpdate path => .performs (.installerLaunch path)
  | .OpenUrl url =>
    if ¬ ALLOWED_URL_SCHEMES.any (fun s => startsWith url s) then
      .retErr "URL must be http:// or https://".data
    else
      .performs (.openerOpen url)
  | .GetSystemInfo => .performs .readSystemInfo

-- ---------------------------------------------------------------------------
-- app:// protocol (src/core/src/protocol.rs)
-- ---------------------------------------------------------------------------

/-- `INDEX_PATH` from `protocol.rs`: default document for `/` or empty path. -/
def INDEX_PATH : Str := "index.html".data

/-- `ServeResult` from `protocol.rs`. -/
inductive ServeResult where
  | Found : List Nat → Str → ServeResult
  | NotFound : ServeResult

/-- `mime_from_path` from `protocol.rs` (extension-based, unknown falls back
to `application/octet-stream`). -/
def mime_from_path (path : Str) : Str :=
  if endsWith path ".html".data || endsWith path "/".data || path.isEmpty then
    "text/html".data
  else if endsWith path ".js".data then "application/javascript".data
  else if endsWith path ".css".data then "text/css".data
  else if endsWith path ".json".data then "application/json".data
  else if endsWith path ".ico".data then "image/x-icon".data
  else if endsWith path ".svg".data then "image/svg+xml".data
  else if endsWith path ".png".data then "image/png".data
  else if endsWith path ".woff2".data then "font/woff2".data
  else "application/octet-stream".data

/-- `normalize_path` from `protocol.rs`: strip leading and trailing slashes,
default the empty result to `index.html`, reject any remaining `..`. -/
def normalize_path (uri_path : Str) : Option Str :=
  let path := trimEndMatches '/' (trimStartMatches '/' uri_path)
  let path := if path.isEmpty then INDEX_PATH else path
  if containsSub "..".data path then none else some path

/-- The compile-time embedded UI directory (`include_dir`), as a finite map
from paths to file bodies (bytes). `get_file` is exact-path lookup. -/
def Dir := List (Str × List Nat)

/-- `Dir::get_file` of `include_dir`: exact lookup by path. -/
def getFile (ui : Dir) (path : Str) : Option (List Nat) :=
  match ui.find? (fun f => f.1 = path) with
  | some f => some f.2
  | none => none

/-- `serve` from `protocol.rs`: normalize, look up in the embedded dir,
attach the MIME type. -/
def serve (ui : Dir) (uri_path : Str) : ServeResult :=
  match normalize_path uri_path with
  | none => .NotFound
  | some path =>
    match getFile ui path with
    | none => .NotFound
    | some body => .Found body (mime_from_path path)

-- ---------------------------------------------------------------------------
-- JSON-for-JS escaping (src/core/src/main.rs, src/core/src/event_loop.rs)
-- ---------------------------------------------------------------------------

/-- Escape of one character in the JS-embedding escape loop shared by both
`escape_json_for_js` functions: backslash, quote, newline, carriage return
get a backslash escape, everything else passes through. -/
def escapeChar (c : Char) : Str :=
  if c = '\\' then ['\\', '\\']
  else if c = '"' then ['\\', '"']
  else if c = '\n' then ['\\', 'n']
  else if c = '\r' then ['\\', 'r']
  else [c]

/-- `escape_json_for_js` from `main.rs`: the always-allocating loop over all
characters. -/
def escape_json_for_js_main : Str → Str
  | [] => []
  | c :: rest => escapeChar c ++ escape_json_for_js_main rest

/-- `escape_json_for_js` from `event_loop.rs`: returns the input unchanged
(`Cow::Borrowed`) when it contains none of `\`, `"`, newline, carriage
return; otherwise runs the same loop as the `main.rs` version. Modelled as
the resulting string in either case. -/
def escape_json_for_js_el (s : Str) : Str :=
  if ¬ s.any (fun c => c = '\\' || c = '"' || c = '\n' || c = '\r') then s
  else escape_json_for_js_main s

-- ---------------------------------------------------------------------------
-- Version comparison (src/core/src/ipc/updates.rs and src/core/src/ipc.rs)
-- ---------------------------------------------------------------------------

/-- Value of one dot-separated segment: `parse::<u64>().unwrap_or(0)`. -/
def segVal (s : Str) : Nat := (parseU64 s).getD 0

/-- The zipped-iterator comparison loop of `semver_compare` in
`ipc/updates.rs`: walk both segment streams; on exhaustion of one side,
return at the first unmatched segment (positive ⇒ longer side wins, zero ⇒
equal, ignoring anything after it). -/
def cmpSegs : List Nat → List Nat → Int
  | [], [] => 0
  | a :: as_, b :: bs => if a ≠ b then (if a > b then 1 else -1) else cmpSegs as_ bs
  | x :: _, [] => if x > 0 then 1 else 0
  | [], y :: _ => if y > 0 then -1 else 0

/-- `semver_compare` from `ipc/updates.rs`: compares all dot-separated
segments pairwise via `cmpSegs`, non-numeric segments as 0. -/
def semver_compare_updates (a b : Str) : Int :=
  cmpSegs ((splitChar '.' a).map segVal) ((splitChar '.' b).map segVal)

/-- The `parse` closure of `semver_compare` in `ipc.rs`: first three segment
values, missing segments as 0. -/
def parseTriple (s : Str) : Nat × Nat × Nat :=
  let parts := (splitChar '.' s).map segVal
  (parts.getD 0 0, parts.getD 1 0, parts.getD 2 0)

/-- `semver_compare` from `ipc.rs`: compare the first three numeric
components in order; segments beyond the third are ignored. -/
def semver_compare_ipc (a b : Str) : Int :=
  let ta := parseTriple a
  let tb := parseTriple b
  if ta.1 ≠ tb.1 then (if ta.1 > tb.1 then 1 else -1)
  else if ta.2.1 ≠ tb.2.1 then (if ta.2.1 > tb.2.1 then 1 else -1)
  else if ta.2.2 ≠ tb.2.2 then (if ta.2.2 > tb.2.2 then 1 else -1)
  else 0

/-- The three-component numeric comparison the specification describes:
parse each of the first three dot-separated segments with missing or
non-numeric segments as zero, and compare the resulting triples
lexicographically, returning 1, -1 or 0. Stated via `Ord` on triples to be
independent of the source's control flow. -/
def specThreeCompare (a b : Str) : Int :=
  let ta := parseTriple a
  let tb := parseTriple b
  match (compare ta.1 tb.1).then ((compare ta.2.1 tb.2.1).then (compare ta.2.2 tb.2.2)) with
  | .lt => -1
  | .eq => 0
  | .gt => 1

-- ---------------------------------------------------------------------------
-- Release asset selection (src/core/src/ipc/updates.rs)
-- ---------------------------------------------------------------------------

/-- `ASSET_EXTENSIONS` for Windows builds. -/
def ASSET_EXTENSIONS_windows : List Str := [".msi".data, ".exe".data]

/-- `ASSET_EXTENSIONS` for macOS builds. -/
def ASSET_EXTENSIONS_macos : List Str := [".pkg".data, ".dmg".data, ".app.tar.gz".data]

/-- `ASSET_EXTENSIONS` for Linux builds. -/
def ASSET_EXTENSIONS_linux : List Str := [".AppImage".data, ".appimage".data, ".deb".data]

/-- Inner loop of `pick_asset_url` for one extension: scan the assets in list
order; a non-string `name` aborts the whole function with `None` (the `?`
operator), a match returns the asset's `browser_download_url` as a string
option. `some r` means the function returns `r`; `none` means fall through
to the next extension. -/
def scanAssetsForExt (ext : Str) : List JValue → Option (Option Str)
  | [] => none
  | a :: rest =>
    match (a.index "name".data).as_str with
    | none => some none
    | some name =>
      if endsWith name ext then some ((a.index "browser_download_url".data).as_str)
      else scanAssetsForExt ext rest

/-- Outer loop of `pick_asset_url`: try each preferred extension in table
order; the first extension whose scan returns decides the result. -/
def scanExtensions (arr : List JValue) : List Str → Option (Option Str)
  | [] => none
  | ext :: rest =>
    match scanAssetsForExt ext arr with
    | some r => some r
    | none => scanExtensions arr rest

/-- `pick_asset_url` from `ipc/updates.rs`, parameterized by the
platform-specific `ASSET_EXTENSIONS` table: preferred-extension scan first,
else the first asset's `browser_download_url`. -/
def pick_asset_url (exts : List Str) (assets : JValue) : Option Str :=
  match assets.as_array with
  | none => none
  | some arr =>
    match scanExtensions arr exts with
    | some r => r
    | none =>
      match arr.head? with
      | none => none
      | some a => (a.index "browser_download_url".data).as_str

/-- The asset selection as the specification words it: the first asset in
asset-list order whose (string) name ends with a suffix from the preference
table, else the first asset; `None` only when the list is empty or not an
array. -/
def specPickAssetUrl (exts : List Str) (assets : JValue) : Option Str :=
  match assets.as_array with
  | none => none
  | some arr =>
    match arr.find? (fun a =>
        match (a.index "name".data).as_str with
        | some name => exts.any (fun ext => endsWith name ext)
        | none => false) with
    | some a => (a.index "browser_download_url".data).as_str
    | none =>
      match arr.head? with
      | none => none
      | some a => (a.index "browser_download_url".data).as_str

-- ---------------------------------------------------------------------------
-- IPC response queue drain (src/core/src/event_loop.rs)
-- ---------------------------------------------------------------------------

/-- Result of one `drain_ipc_queue_and_deliver` call: the new queue and
counter, the boolean return value, and the batch delivered to the WebView in
one `evaluate_script` (`[]` when nothing was delivered). -/
structure DrainResult where
  queue : List Str
  pending : Nat
  flushed : Bool
  delivered : List Str

/-- `drain_ipc_queue_and_deliver` from `event_loop.rs`: `mem::take` the whole
queue; if the batch is empty return `false` with nothing delivered and the
counter untouched; otherwise subtract `min(batch length, counter)` from the
counter and deliver the batch in insertion order. -/
def drain_ipc_queue_and_deliver (queue : List Str) (pending : Nat) : DrainResult :=
  let batch := queue
  let n := batch.length
  if n = 0 then
    { queue := [], pending := pending, flushed := false, delivered := [] }
  else
    let to_sub := min n pending
    { queue := [], pending := pending - to_sub, flushed := true, delivered := batch }

-- ---------------------------------------------------------------------------
-- Admission counter step relation
-- (src/core/src/main.rs ipc_handler + src/core/src/event_loop.rs drain)
-- ---------------------------------------------------------------------------

/-- `MAX_PENDING_IPC` from `main.rs`: admission capacity for pending IPC
responses. -/
def MAX_PENDING_IPC : Nat := 256

/-- State of the admission system: the `pending_ipc` counter (as an integer,
so that going negative would be visible), the response queue, and the number
of in-flight responses — responses whose admission check-and-increment has
run but whose proxy send has not yet succeeded (enqueued) or failed
(decremented back). -/
structure AdmState where
  counter : Int
  queue : List Str
  inflight : Nat

/-- Initial admission state: zero counter, empty queue, nothing in flight. -/
def AdmState.init : AdmState := { counter := 0, queue := [], inflight := 0 }

/-- One atomic step of the admission system, at the granularity of the
observation points in the source: the admission check-and-increment in
`ipc_handler` (`main.rs`), shedding when the counter is at capacity, the
successful proxy send placing the response in the queue, the decrement on
proxy-send failure (`main.rs`), and the drain decrement by
`min(batch length, counter)` (`event_loop.rs`). -/
inductive AdmStep : AdmState → AdmState → Prop where
  | accept (s : AdmState) (h : s.counter < (MAX_PENDING_IPC : Int)) :
      AdmStep s { counter := s.counter + 1, queue := s.queue, inflight := s.inflight + 1 }
  | shed (s : AdmState) (h : ¬ s.counter < (MAX_PENDING_IPC : Int)) :
      AdmStep s s
  | sendOk (s : AdmState) (r : Str) (h : 0 < s.inflight) :
      AdmStep s { counter := s.counter, queue := s.queue ++ [r], inflight := s.inflight - 1 }
  | sendFail (s : AdmState) (h : 0 < s.inflight) :
      AdmStep s { counter := s.counter - 1, queue := s.queue, inflight := s.inflight - 1 }
  | drain (s : AdmState) :
      AdmStep s
        { counter := s.counter - (min s.queue.length s.counter.toNat : Nat),
          queue := [],
          inflight := s.inflight }

/-- Reachability from the initial admission state. -/
def AdmReachable (s : AdmState) : Prop :=
  Relation.ReflTransGen AdmStep AdmState.init s

/-- The inductive invariant of the admission system: the counter covers every
in-flight response and every queued response, and stays within capacity. -/
def AdmInv (s : AdmState) : Prop :=
  (s.inflight : Int) + s.queue.length ≤ s.counter ∧ s.counter ≤ (MAX_PENDING_IPC : Int)

/-- Whether an asset's (string) `name` ends with the given extension; false
for a non-string name. Used to state what `pick_asset_url` selects. -/
def assetMatches (a : JValue) (ext : Str) : Bool :=
  match (a.index "name".data).as_str with
  | some name => endsWith name ext
  | none => false

/-- A concrete two-asset release list: an `.exe` asset first, an `.msi`
asset second, both with string download URLs. -/
def c8Assets : List JValue :=
  [.jobj [("name".data, .jstr "a.exe".data),
          ("browser_download_url".data, .jstr "u1".data)],
   .jobj [("name".data, .jstr "b.msi".data),
          ("browser_download_url".data, .jstr "u2".data)]]

/-- A concrete non-empty release list whose single asset has a numeric
(non-string) `name` but a string download URL. -/
def c8BadAssets : List JValue :=
  [.jobj [("name".data, .jnum 1),
          ("browser_download_url".data, .jstr "u3".data)]]

-- ---------------------------------------------------------------------------
-- Helper lemmas
-- ---------------------------------------------------------------------------

/-- `containsSub` decides the sublist (infix) relation, like Rust
`str::contains`. -/
theorem containsSub_correct (sub : Str) :
    ∀ l : Str, containsSub sub l = true ↔ sub <:+: l := by
  intro l
  induction l with
  | nil =>
    simp [containsSub, List.infix_nil]
  | cons c rest ih =>
    simp only [containsSub, Bool.or_eq_true, List.isPrefixOf_iff_prefix, ih,
      List.infix_cons_iff]

/-- Dropping a leading run of slashes cannot remove a `..` occurrence. -/
theorem dotdot_survives_dropWhile :
    ∀ l : Str, "..".data <:+: l → "..".data <:+: l.dropWhile (· = '/') := by
  intro l
  induction l with
  | nil => simp
  | cons c rest ih =>
    intro h
    rw [List.dropWhile_cons]
    by_cases hc : c = '/'
    · rw [if_pos (by simp [hc])]
      rcases List.infix_cons_iff.mp h with hpre | hinf
      · have heq : ('.' : Char) = c := by
          have hp : ('.' :: '.' :: ([] : Str)) <+: c :: rest := hpre
          exact (List.cons_prefix_cons.mp hp).1
        exact absurd (heq.trans hc) (by decide)
      · exact ih hinf
    · rw [if_neg (by simp [hc])]
      exact h

/-- Stripping leading and trailing slashes cannot remove a `..` occurrence. -/
theorem dotdot_survives_trim (p : Str) (h : "..".data <:+: p) :
    "..".data <:+: trimEndMatches '/' (trimStartMatches '/' p) := by
  have hrev : ("..".data).reverse = "..".data := by decide
  have h1 : "..".data <:+: trimStartMatches '/' p :=
    dotdot_survives_dropWhile p h
  have h2 : "..".data <:+: (trimStartMatches '/' p).reverse := by
    rw [← hrev]
    exact List.reverse_infix.mpr h1
  have h3 : "..".data <:+: (trimStartMatches '/' p).reverse.dropWhile (· = '/') :=
    dotdot_survives_dropWhile _ h2
  show "..".data <:+: ((trimStartMatches '/' p).reverse.dropWhile (· = '/')).reverse
  rw [← hrev]
  exact List.reverse_infix.mpr h3

/-- The escape loop is the identity on a string with no character needing
escape. -/
theorem escape_main_eq_self_of_no_special :
    ∀ s : Str, (∀ c ∈ s, (c = '\\' || c = '"' || c = '\n' || c = '\r') = false) →
      escape_json_for_js_main s = s := by
  intro s
  induction s with
  | nil => intro _; rfl
  | cons c rest ih =>
    intro h
    have hc := h c (List.mem_cons_self c rest)
    simp only [Bool.or_eq_false_iff, decide_eq_false_iff_not] at hc
    have hrest := ih (fun x hx => h x (List.mem_cons_of_mem c hx))
    simp only [escape_json_for_js_main, hrest, escapeChar,
      if_neg hc.1.1.1, if_neg hc.1.1.2, if_neg hc.1.2, if_neg hc.2]
    rfl

/-- An `http://` URL does not start with `https://`. -/
theorem http_prefix_not_https (url : Str) (h : startsWith url "http://".data = true) :
    startsWith url "https://".data = false := by
  by_contra hh
  rw [Bool.not_eq_false] at hh
  have hp1 : "http://".data <+: url := List.isPrefixOf_iff_prefix.mp h
  have hp2 : "https://".data <+: url := List.isPrefixOf_iff_prefix.mp hh
  rcases List.prefix_or_prefix_of_prefix hp1 hp2 with hc | hc
  · exact absurd hc (by decide)
  · exact absurd hc (by decide)

-- ---------------------------------------------------------------------------
-- Claims
-- ---------------------------------------------------------------------------

/-- C3: `is_blocking_command` is a pure total function on the closed command
set and matches the documented table: `Ping`, `ReadConfig`, `WriteConfig`,
`GetVersion`, `GetSystemInfo` are inline (false); the dialogs,
`CheckForUpdates`, `DownloadUpdate`, `InstallUpdate`, `OpenUrl` are blocking
(true). -/
theorem C3_is_blocking_total_and_table :
    is_blocking_command .Ping = false ∧
    is_blocking_command .ReadConfig = false ∧
    (∀ d, is_blocking_command (.WriteConfig d) = false) ∧
    is_blocking_command .GetVersion = false ∧
    is_blocking_command .GetSystemInfo = false ∧
    is_blocking_command .OpenFileDialog = true ∧
    (∀ fs, is_blocking_command (.OpenFileDialogWithFilters fs) = true) ∧
    (∀ dn fs, is_blocking_command (.SaveFileDialog dn fs) = true) ∧
    is_blocking_command .OpenFolderDialog = true ∧
    is_blocking_command .CheckForUpdates = true ∧
    (∀ u, is_blocking_command (.DownloadUpdate u) = true) ∧
    (∀ p, is_blocking_command (.InstallUpdate p) = true) ∧
    (∀ u, is_blocking_command (.OpenUrl u) = true) :=
  ⟨rfl, rfl, fun _ => rfl, rfl, rfl, rfl, fun _ => rfl, fun _ _ => rfl, rfl,
   rfl, fun _ => rfl, fun _ => rfl, fun _ => rfl⟩

/-- C4: `normalize_path` maps `/`, the empty path, `///`, and every path
that strips to empty to the default document `index.html`; it rejects every
path containing `..`; and `serve` answers `NotFound` on such a traversal
path for every embedded directory, so no lookup can be reached. -/
theorem C4_normalize_path_and_serve :
    normalize_path "/".data = some INDEX_PATH ∧
    normalize_path "".data = some INDEX_PATH ∧
    normalize_path "///".data = some INDEX_PATH ∧
    (∀ p : Str, trimEndMatches '/' (trimStartMatches '/' p) = [] →
      normalize_path p = some INDEX_PATH) ∧
    (∀ p : Str, containsSub "..".data p = true → normalize_path p = none) ∧
    (∀ (ui : Dir) (p : Str), containsSub "..".data p = true → serve ui p = .NotFound) := by
  have hreject : ∀ p : Str, containsSub "..".data p = true → normalize_path p = none := by
    intro p h
    have hinf : "..".data <:+: p := (containsSub_correct _ p).mp h
    have htrim := dotdot_survives_trim p hinf
    have hne : trimEndMatches '/' (trimStartMatches '/' p) ≠ [] := by
      intro h0
      rw [h0] at htrim
      exact absurd (List.infix_nil.mp htrim) (by decide)
    simp only [normalize_path]
    generalize hg : trimEndMatches '/' (trimStartMatches '/' p) = t at htrim hne
    cases t with
    | nil => exact absurd rfl hne
    | cons c rest =>
      show (if containsSub "..".data (c :: rest) = true then (none : Option Str)
            else some (c :: rest)) = none
      rw [if_pos ((containsSub_correct _ _).mpr htrim)]
  refine ⟨by decide, by decide, by decide, ?_, hreject, ?_⟩
  · intro p h
    simp only [normalize_path]
    rw [h]
    decide
  · intro ui p h
    unfold serve
    rw [hreject p h]

/-- C4 witness: concrete instances of each conditional part — a path that
strips to empty, a traversal path, and a traversal request served from a
concrete embedded directory. -/
theorem C4_witness :
    normalize_path "//".data = some INDEX_PATH ∧
    normalize_path "/a/../b".data = none ∧
    serve [] "/../etc/passwd".data = ServeResult.NotFound :=
  ⟨C4_normalize_path_and_serve.2.2.2.1 "//".data (by decide),
   C4_normalize_path_and_serve.2.2.2.2.1 "/a/../b".data (by decide),
   C4_normalize_path_and_serve.2.2.2.2.2 [] "/../etc/passwd".data (by decide)⟩

/-- C5: `handle_command` on `OpenUrl` with a URL that starts with neither
`https://` nor `http://` returns the scheme-rejection error and never
reaches the leaf opener effect. -/
theorem C5_open_url_scheme_rejected (url : Str)
    (h1 : startsWith url "https://".data = false)
    (h2 : startsWith url "http://".data = false) :
    handle_command (.OpenUrl url) = .retErr "URL must be http:// or https://".data ∧
    ∀ e : Effect, handle_command (.OpenUrl url) ≠ .performs e := by
  have hany : ALLOWED_URL_SCHEMES.any (fun s => startsWith url s) = false := by
    simp [ALLOWED_URL_SCHEMES, h1, h2]
  have hmain : handle_command (.OpenUrl url) = .retErr "URL must be http:// or https://".data := by
    simp only [handle_command]
    rw [if_pos (by simp [hany])]
  exact ⟨hmain, fun e hcon => by rw [hmain] at hcon; exact HandleOutcome.noConfusion hcon⟩

/-- C5 witness: a `file://` URL is rejected with an error and performs no
effect. -/
theorem C5_witness :
    handle_command (.OpenUrl "file:///etc/passwd".data)
      = .retErr "URL must be http:// or https://".data ∧
    ∀ e : Effect,
      handle_command (.OpenUrl "file:///etc/passwd".data) ≠ .performs e :=
  C5_open_url_scheme_rejected "file:///etc/passwd".data (by decide) (by decide)

/-- C6: the two `IpcResponse` constructors set exactly one of `ok`/`err`,
and serialization emits the `id` key plus exactly the populated key, never a
`null` for the unset one. -/
theorem C6_response_envelope (id : Str) (data : JValue) (msg : Str) :
    ((IpcResponse.mkOk id data).ok = some data ∧
     (IpcResponse.mkOk id data).err = none ∧
     serializeResponse (IpcResponse.mkOk id data)
       = [("id".data, .jstr id), ("ok".data, data)]) ∧
    ((IpcResponse.mkErr id msg).ok = none ∧
     (IpcResponse.mkErr id msg).err = some msg ∧
     serializeResponse (IpcResponse.mkErr id msg)
       = [("id".data, .jstr id), ("err".data, .jstr msg)]) :=
  ⟨⟨rfl, rfl, rfl⟩, ⟨rfl, rfl, rfl⟩⟩

/-- C9: the copy-on-write escape in `event_loop.rs` and the always-allocating
escape in `main.rs` produce the same output on every input string. -/
theorem C9_escape_functions_agree (s : Str) :
    escape_json_for_js_el s = escape_json_for_js_main s := by
  unfold escape_json_for_js_el
  by_cases h : s.any (fun c => c = '\\' || c = '"' || c = '\n' || c = '\r') = true
  · rw [if_neg (fun hc => hc h)]
  · rw [if_pos h]
    have hall : ∀ c ∈ s, ((c = '\\' : Bool) || c = '"' || c = '\n' || c = '\r') = false := by
      have hfalse : s.any (fun c => c = '\\' || c = '"' || c = '\n' || c = '\r') = false :=
        Bool.eq_false_iff.mpr h
      intro c hc
      have := List.any_eq_false.mp hfalse c hc
      simpa using this
    exact (escape_main_eq_self_of_no_special s hall).symm

/-- C10: `download_update` on any URL not starting with `https://`
(in particular any `http://` URL) returns the error
`Download URL must be https://` before performing any effect. -/
theorem C10_download_rejects_non_https (url : Str)
    (h : startsWith url "https://".data = false ∨ startsWith url "http://".data = true) :
    download_update url = .retErr "Download URL must be https://".data ∧
    ∀ e : Effect, download_update url ≠ .performs e := by
  have hfalse : startsWith url "https://".data = false := by
    rcases h with h | h
    · exact h
    · exact http_prefix_not_https url h
  have hmain : download_update url = .retErr "Download URL must be https://".data := by
    unfold download_update
    rw [if_pos (by simp [hfalse])]
  exact ⟨hmain, fun e hcon => by rw [hmain] at hcon; exact HandleOutcome.noConfusion hcon⟩

/-- C10 witness: an `http://` download URL is rejected with no effect. -/
theorem C10_witness :
    download_update "http://example.com/app.msi".data
      = .retErr "Download URL must be https://".data ∧
    ∀ e : Effect, download_update "http://example.com/app.msi".data ≠ .performs e :=
  C10_download_rejects_non_https "http://example.com/app.msi".data (Or.inr (by decide))

/-- Each admission step preserves the admission invariant. -/
theorem admStep_preserves_inv {s t : AdmState} (hinv : AdmInv s) (hstep : AdmStep s t) :
    AdmInv t := by
  obtain ⟨h1, h2⟩ := hinv
  cases hstep with
  | accept h =>
    constructor
    · show (↑(s.inflight + 1) : Int) + ↑s.queue.length ≤ s.counter + 1
      push_cast
      omega
    · show s.counter + 1 ≤ (MAX_PENDING_IPC : Int)
      omega
  | shed h => exact ⟨h1, h2⟩
  | sendOk r h =>
    constructor
    · show (↑(s.inflight - 1) : Int) + ↑(s.queue ++ [r]).length ≤ s.counter
      simp only [List.length_append, List.length_singleton]
      push_cast [h]
      omega
    · exact h2
  | sendFail h =>
    constructor
    · show (↑(s.inflight - 1) : Int) + ↑s.queue.length ≤ s.counter - 1
      push_cast [h]
      omega
    · show s.counter - 1 ≤ (MAX_PENDING_IPC : Int)
      omega
  | drain =>
    constructor
    · show (↑s.inflight : Int) + ↑(List.length ([] : List Str))
        ≤ s.counter - ↑(min s.queue.length s.counter.toNat)
      simp only [List.length_nil]
      omega
    · show s.counter - ↑(min s.queue.length s.counter.toNat) ≤ (MAX_PENDING_IPC : Int)
      omega

/-- C1: in every state reachable from the empty initial state by the
admission steps — check-and-increment on accept (shedding at capacity),
enqueue on successful send, decrement on proxy-send failure, and
decrement-by-min on drain — the pending counter satisfies
`0 ≤ counter ≤ MAX_PENDING_IPC`. -/
theorem C1_admission_counter_bounds (s : AdmState) (h : AdmReachable s) :
    0 ≤ s.counter ∧ s.counter ≤ (MAX_PENDING_IPC : Int) := by
  have hinv : AdmInv s := by
    unfold AdmReachable at h
    induction h with
    | refl => exact ⟨by norm_num [AdmState.init, AdmInv], by norm_num [AdmState.init, AdmInv, MAX_PENDING_IPC]⟩
    | tail hab hbc ih => exact admStep_preserves_inv ih hbc
  obtain ⟨h1, h2⟩ := hinv
  refine ⟨?_, h2⟩
  have h0 : (0 : Int) ≤ ↑s.inflight + ↑s.queue.length := by positivity
  omega

/-- C1 witness: the state reached by one admission from the initial state is
reachable and within bounds. -/
theorem C1_witness :
    0 ≤ (AdmState.mk 1 [] 1).counter ∧
    (AdmState.mk 1 [] 1).counter ≤ (MAX_PENDING_IPC : Int) :=
  C1_admission_counter_bounds (AdmState.mk 1 [] 1)
    (Relation.ReflTransGen.single (AdmStep.accept AdmState.init (by decide)))

/-- C2: one drain step empties the queue and delivers exactly its previous
contents in insertion order; an empty queue reports no work and leaves the
counter unchanged; a non-empty batch of `n` items flushes and decrements the
counter by exactly `min(n, counter)`, which never exceeds the counter. -/
theorem C2_drain_correct (q : List Str) (p : Nat) :
    (drain_ipc_queue_and_deliver q p).queue = [] ∧
    (drain_ipc_queue_and_deliver q p).delivered = q ∧
    (q = [] →
      (drain_ipc_queue_and_deliver q p).flushed = false ∧
      (drain_ipc_queue_and_deliver q p).delivered = [] ∧
      (drain_ipc_queue_and_deliver q p).pending = p) ∧
    (q ≠ [] →
      (drain_ipc_queue_and_deliver q p).flushed = true ∧
      (drain_ipc_queue_and_deliver q p).pending = p - min q.length p ∧
      min q.length p ≤ p) := by
  cases q with
  | nil =>
    refine ⟨rfl, rfl, fun _ => ⟨rfl, rfl, rfl⟩, fun hne => absurd rfl hne⟩
  | cons c rest =>
    have hn : (c :: rest).length ≠ 0 := by simp
    constructor
    · simp [drain_ipc_queue_and_deliver, hn]
    constructor
    · simp [drain_ipc_queue_and_deliver, hn]
    constructor
    · intro hcon
      exact absurd hcon (by simp)
    · intro _
      refine ⟨?_, ?_, Nat.min_le_right _ _⟩
      · simp [drain_ipc_queue_and_deliver, hn]
      · simp [drain_ipc_queue_and_deliver, hn]

/-- C2 witness: a singleton batch flushes and decrements by one; an empty
queue reports no work. -/
theorem C2_witness :
    (drain_ipc_queue_and_deliver ["r1".data] 2).flushed = true ∧
    (drain_ipc_queue_and_deliver ["r1".data] 2).pending = 2 - min (["r1".data] : List Str).length 2 ∧
    min (["r1".data] : List Str).length 2 ≤ 2 ∧
    (drain_ipc_queue_and_deliver [] 7).flushed = false :=
  ⟨(C2_drain_correct ["r1".data] 2).2.2.2 (by simp) |>.1,
   (C2_drain_correct ["r1".data] 2).2.2.2 (by simp) |>.2.1,
   (C2_drain_correct ["r1".data] 2).2.2.2 (by simp) |>.2.2,
   ((C2_drain_correct [] 7).2.2.1 rfl).1⟩

/-- The `ipc.rs` version of `semver_compare` implements the three-component
lexicographic comparison. -/
theorem semver_ipc_eq_spec (a b : Str) : semver_compare_ipc a b = specThreeCompare a b := by
  unfold semver_compare_ipc specThreeCompare
  rcases hA : parseTriple a with ⟨a1, a2, a3⟩
  rcases hB : parseTriple b with ⟨b1, b2, b3⟩
  simp only
  rcases Nat.lt_trichotomy a1 b1 with h1 | h1 | h1
  · simp [Nat.compare_eq_lt.mpr h1, h1.ne, not_lt.mpr h1.le, Ordering.then]
  · subst h1
    rw [if_neg (by simp), Nat.compare_eq_eq.mpr rfl]
    rw [show (Ordering.eq.then ((compare a2 b2).then (compare a3 b3)))
          = (compare a2 b2).then (compare a3 b3) from rfl]
    rcases Nat.lt_trichotomy a2 b2 with h2 | h2 | h2
    · simp [Nat.compare_eq_lt.mpr h2, h2.ne, not_lt.mpr h2.le, Ordering.then]
    · subst h2
      rw [if_neg (by simp), Nat.compare_eq_eq.mpr rfl]
      rw [show (Ordering.eq.then (compare a3 b3)) = compare a3 b3 from rfl]
      rcases Nat.lt_trichotomy a3 b3 with h3 | h3 | h3
      · simp [Nat.compare_eq_lt.mpr h3, h3.ne, not_lt.mpr h3.le]
      · subst h3
        rw [if_neg (by simp), Nat.compare_eq_eq.mpr rfl]
      · simp [Nat.compare_eq_gt.mpr h3, h3.ne', h3]
    · simp [Nat.compare_eq_gt.mpr h2, h2.ne', h2, Ordering.then]
  · simp [Nat.compare_eq_gt.mpr h1, h1.ne', h1, Ordering.then]

/-- `cmpSegs` on two three-element segment lists is the three-component
cascade. -/
theorem cmpSegs_three (x1 x2 x3 y1 y2 y3 : ℕ) :
    cmpSegs [x1, x2, x3] [y1, y2, y3] =
      (if x1 ≠ y1 then (if x1 > y1 then (1 : Int) else -1)
       else if x2 ≠ y2 then (if x2 > y2 then (1 : Int) else -1)
       else if x3 ≠ y3 then (if x3 > y3 then (1 : Int) else -1)
       else 0) := by
  by_cases h1 : x1 = y1
  · subst h1
    by_cases h2 : x2 = y2
    · subst h2
      by_cases h3 : x3 = y3
      · subst h3
        simp [cmpSegs]
      · simp [cmpSegs, h3]
    · simp [cmpSegs, h2]
  · simp [cmpSegs, h1]

/-- On strings with exactly three dot-separated segments each, the
`ipc/updates.rs` version of `semver_compare` agrees with the `ipc.rs`
version. -/
theorem semver_updates_eq_ipc_of_three_segments (a b : Str)
    (ha : (splitChar '.' a).length = 3) (hb : (splitChar '.' b).length = 3) :
    semver_compare_updates a b = semver_compare_ipc a b := by
  obtain ⟨a1s, a2s, a3s, hA⟩ := List.length_eq_three.mp ha
  obtain ⟨b1s, b2s, b3s, hB⟩ := List.length_eq_three.mp hb
  unfold semver_compare_updates semver_compare_ipc parseTriple
  rw [hA, hB]
  simp only [List.map_cons, List.map_nil, List.getD_cons_zero, List.getD_cons_succ]
  rw [cmpSegs_three]

/-- C7 counterexample: the `ipc/updates.rs` `semver_compare` differs from the
three-component comparison the claim describes: comparing `0.0.1` with `0`
it returns 0 (equal), while the three-component comparison returns 1. -/
theorem C7_counterexample :
    semver_compare_updates "0.0.1".data "0".data
      ≠ specThreeCompare "0.0.1".data "0".data := by
  decide

/-- C7 (amended): the `ipc.rs` `semver_compare` equals the three-component
numeric comparison on all inputs; the `ipc/updates.rs` `semver_compare`
walks all dot-separated segments and agrees with it when both strings have
exactly three segments; and the documented examples — `1.0.0` vs `1.0.0`
equal, `2.0.0` vs `1.0.0` greater, `1.0.0` vs `1.0.1` less, `1.0` vs
`1.0.0` equal — hold for both copies. -/
theorem C7_semver_three_component (a b : Str) :
    semver_compare_ipc a b = specThreeCompare a b ∧
    ((splitChar '.' a).length = 3 → (splitChar '.' b).length = 3 →
      semver_compare_updates a b = specThreeCompare a b) ∧
    (semver_compare_updates "1.0.0".data "1.0.0".data = 0 ∧
     semver_compare_updates "2.0.0".data "1.0.0".data = 1 ∧
     semver_compare_updates "1.0.0".data "1.0.1".data = -1 ∧
     semver_compare_updates "1.0".data "1.0.0".data = 0 ∧
     semver_compare_ipc "1.0.0".data "1.0.0".data = 0 ∧
     semver_compare_ipc "2.0.0".data "1.0.0".data = 1 ∧
     semver_compare_ipc "1.0.0".data "1.0.1".data = -1 ∧
     semver_compare_ipc "1.0".data "1.0.0".data = 0) :=
  ⟨semver_ipc_eq_spec a b,
   fun ha hb =>
     (semver_updates_eq_ipc_of_three_segments a b ha hb).trans (semver_ipc_eq_spec a b),
   by decide⟩

/-- C7 witness: both comparison functions agree with the three-component
comparison at `1.0.0` versus `1.0.1`. -/
theorem C7_witness :
    semver_compare_ipc "1.0.0".data "1.0.1".data
      = specThreeCompare "1.0.0".data "1.0.1".data ∧
    semver_compare_updates "1.0.0".data "1.0.1".data
      = specThreeCompare "1.0.0".data "1.0.1".data :=
  ⟨(C7_semver_three_component "1.0.0".data "1.0.1".data).1,
   (C7_semver_three_component "1.0.0".data "1.0.1".data).2.1 (by decide) (by decide)⟩

/-- When no asset (all with string names) matches the extension, the inner
scan falls through. -/
theorem scanAssets_eq_none (ext : Str) (arr : List JValue)
    (hnames : ∀ a ∈ arr, ((a.index "name".data).as_str).isSome = true)
    (hno : arr.all (fun a => ! assetMatches a ext) = true) :
    scanAssetsForExt ext arr = none := by
  induction arr with
  | nil => rfl
  | cons a rest ih =>
    obtain ⟨n, hn⟩ := Option.isSome_iff_exists.mp (hnames a (List.mem_cons_self a rest))
    rw [List.all_cons, Bool.and_eq_true] at hno
    have hend : endsWith n ext = false := by
      have hm := hno.1
      rw [Bool.not_eq_true'] at hm
      unfold assetMatches at hm
      rw [hn] at hm
      exact hm
    simp only [scanAssetsForExt, hn]
    rw [if_neg (by simp [hend])]
    exact ih (fun x hx => hnames x (List.mem_cons_of_mem a hx)) hno.2

/-- When some asset (all with string names) matches the extension, the inner
scan returns the `browser_download_url` of the first matching asset. -/
theorem scanAssets_eq_found (ext : Str) (arr : List JValue)
    (hnames : ∀ a ∈ arr, ((a.index "name".data).as_str).isSome = true)
    (hyes : arr.any (fun a => assetMatches a ext) = true) :
    scanAssetsForExt ext arr =
      some (match arr.find? (fun a => assetMatches a ext) with
            | some a => (a.index "browser_download_url".data).as_str
            | none => none) := by
  induction arr with
  | nil => simp at hyes
  | cons a rest ih =>
    obtain ⟨n, hn⟩ := Option.isSome_iff_exists.mp (hnames a (List.mem_cons_self a rest))
    by_cases hm : assetMatches a ext = true
    · have hend : endsWith n ext = true := by
        unfold assetMatches at hm
        rw [hn] at hm
        exact hm
      simp only [scanAssetsForExt, hn, List.find?_cons, hm, if_pos hend]
    · have hm' : assetMatches a ext = false := Bool.eq_false_iff.mpr hm
      have hend : endsWith n ext = false := by
        unfold assetMatches at hm'
        rw [hn] at hm'
        exact hm'
      have hrest : rest.any (fun x => assetMatches x ext) = true := by
        rw [List.any_cons, hm'] at hyes
        simpa using hyes
      simp only [scanAssetsForExt, hn, List.find?_cons, hm']
      rw [if_neg (by simp [hend])]
      exact ih (fun x hx => hnames x (List.mem_cons_of_mem a hx)) hrest

/-- The inner scan returns the abort value (the `?` operator) when it
reaches an asset with a non-string `name`: every earlier asset has a string
name and does not match the extension, so the scan walks past them to the
bad asset. -/
theorem scanAssets_abort (ext : Str) (bad : JValue) (rest : List JValue)
    (hbad : (bad.index "name".data).as_str = none) :
    ∀ pre : List JValue,
      (∀ a ∈ pre, ((a.index "name".data).as_str).isSome = true ∧
        assetMatches a ext = false) →
      scanAssetsForExt ext (pre ++ bad :: rest) = some none := by
  intro pre
  induction pre with
  | nil =>
    intro _
    simp only [List.nil_append, scanAssetsForExt, hbad]
  | cons a t ih =>
    intro hpre
    obtain ⟨hs, hm⟩ := hpre a (List.mem_cons_self a t)
    obtain ⟨n, hn⟩ := Option.isSome_iff_exists.mp hs
    have hend : endsWith n ext = false := by
      unfold assetMatches at hm
      rw [hn] at hm
      exact hm
    simp only [List.cons_append, scanAssetsForExt, hn]
    rw [if_neg (by simp [hend])]
    exact ih (fun x hx => hpre x (List.mem_cons_of_mem a hx))

/-- C8 counterexample: with the Windows preference table `[.msi, .exe]` and
an asset list whose first asset is an `.exe` and second an `.msi`,
`pick_asset_url` returns the `.msi` URL (extension order dominates), while
the claim's first-asset-in-list-order reading selects the `.exe` URL; and
on a non-empty array whose only asset has a numeric `name`,
`pick_asset_url` returns `None`, refuting `None` only on an empty or
non-array input. -/
theorem C8_counterexample :
    pick_asset_url ASSET_EXTENSIONS_windows (.jarr c8Assets) = some "u2".data ∧
    specPickAssetUrl ASSET_EXTENSIONS_windows (.jarr c8Assets) = some "u1".data ∧
    pick_asset_url ASSET_EXTENSIONS_windows (.jarr c8Assets)
      ≠ specPickAssetUrl ASSET_EXTENSIONS_windows (.jarr c8Assets) ∧
    c8BadAssets.length = 1 ∧
    pick_asset_url ASSET_EXTENSIONS_windows (.jarr c8BadAssets) = none :=
  ⟨rfl, rfl, by decide, rfl, rfl⟩

/-- C8 (amended): (i) for an asset list in which every asset has a string
`name`, `pick_asset_url` returns the `browser_download_url` of the first
asset matching the earliest extension in the preference table that any
asset matches (extension order takes precedence over asset order), and
falls back to the first asset's `browser_download_url` when no extension
matches; the result is the `as_str` of that URL field, so it is `None` when
that field is not a string; (ii) when the scan for the first extension
reaches an asset with a non-string `name` (every earlier asset has a string
name and does not match), the `?` operator aborts the whole function with
`None`, even on a non-empty list. -/
theorem C8_pick_asset_extension_major :
    (∀ (exts : List Str) (arr : List JValue),
      (∀ a ∈ arr, ((a.index "name".data).as_str).isSome = true) →
      pick_asset_url exts (.jarr arr) =
        (match exts.find? (fun ext => arr.any (fun a => assetMatches a ext)) with
         | some ext =>
           (match arr.find? (fun a => assetMatches a ext) with
            | some a => (a.index "browser_download_url".data).as_str
            | none => none)
         | none =>
           (match arr.head? with
            | none => none
            | some a => (a.index "browser_download_url".data).as_str))) ∧
    (∀ (e : Str) (exts : List Str) (pre : List JValue) (bad : JValue)
       (rest : List JValue),
      (∀ a ∈ pre, ((a.index "name".data).as_str).isSome = true ∧
        assetMatches a e = false) →
      (bad.index "name".data).as_str = none →
      pick_asset_url (e :: exts) (.jarr (pre ++ bad :: rest)) = none) := by
  constructor
  · intro exts arr hnames
    unfold pick_asset_url
    simp only [JValue.as_array]
    induction exts with
    | nil => simp only [scanExtensions, List.find?_nil]
    | cons ext rest ih =>
      by_cases hany : arr.any (fun a => assetMatches a ext) = true
      · simp only [scanExtensions, List.find?_cons, hany,
          scanAssets_eq_found ext arr hnames hany]
      · have hany' : arr.any (fun a => assetMatches a ext) = false :=
          Bool.eq_false_iff.mpr hany
        have hall : arr.all (fun a => ! assetMatches a ext) = true := by
          rw [List.all_eq_true]
          intro x hx
          have := List.any_eq_false.mp hany' x hx
          simpa using this
        simp only [scanExtensions, List.find?_cons, hany',
          scanAssets_eq_none ext arr hnames hall]
        exact ih
  · intro e exts pre bad rest hpre hbad
    have habort := scanAssets_abort e bad rest hbad pre hpre
    unfold pick_asset_url
    simp only [JValue.as_array, scanExtensions, habort]

/-- C8 witness: on the concrete two-asset list the selection follows
extension-table order and picks the `.msi` URL; on the concrete list whose
only asset has a numeric name, the function aborts with `None`. -/
theorem C8_witness :
    pick_asset_url ASSET_EXTENSIONS_windows (.jarr c8Assets) = some "u2".data ∧
    pick_asset_url ASSET_EXTENSIONS_windows (.jarr c8BadAssets) = none := by
  constructor
  · rw [C8_pick_asset_extension_major.1 ASSET_EXTENSIONS_windows c8Assets (by decide)]
    rfl
  · exact C8_pick_asset_extension_major.2 ".msi".data [".exe".data] []
      (.jobj [("name".data, .jnum 1), ("browser_download_url".data, .jstr "u3".data)]) []
      (fun a ha => absurd ha (List.not_mem_nil a)) rfl

end DesktopRuntime
